import Mathlib

set_option linter.unusedSectionVars false
set_option linter.unusedVariables false

/-!
Shallow embedding of the `DrawingCanvas` React component (file
`src/components/Canvas.jsx`): a rasterized drawing surface with a
snapshot-based linear undo/redo history.

Modelling conventions:
* The raster contents (the canvas pixels, and equally the data-URL snapshots
  produced by `canvas.toDataURL()`) are an abstract type `σ`; a snapshot and
  the raster it encodes are identified, since `toDataURL` / `drawImage` form
  an encode/decode pair.  `Inhabited.default : σ` plays the role of the blank
  raster the canvas starts with (and of the JS `undefined` value an
  out-of-bounds array read would produce; such reads are unreachable under the
  documented index invariant).
* React `useState` setters issued inside one event handler are batched;
  functional updaters (`set... ((prev) => ...)`) chain on the queued value
  while plain reads (`history`, `currentHistoryIndex`) see the values of the
  current render.  Each handler is therefore modelled as one pure function
  `CanvasState σ → CanvasState σ` computed with exactly that discipline.
* Stroke rasterisation (`ctx.stroke()`) is an abstract function
  `render : CompositeOp → Nat → List (Int × Int) → σ → σ` applied to the
  current path; no claim depends on actual pixel arithmetic.
* The `img.onload` callbacks of `undoLastStroke` / `redoLastStroke` are
  modelled synchronously (each decode completes before the next event) in
  `CanvasState`; the `AsyncState` model below keeps the issued decode
  requests explicit so that out-of-order completions can be analysed.
-/

namespace JustACanvas

/-- The two `globalCompositeOperation` values the component uses:
`source-over` (pen) and `destination-out` (eraser). -/
inductive CompositeOp where
  | sourceOver
  | destinationOut
deriving DecidableEq, Repr

/-- A mouse event as consumed by the handlers: which `button` is pressed and
the surface-relative `nativeEvent.offsetX/Y` coordinates. -/
structure MouseEvent where
  button : Nat
  offsetX : Int
  offsetY : Int
deriving DecidableEq, Repr

/-- The full state of the widget: the React state hooks (`isDrawing`,
`isEraser`, `history`, `redoHistory`, `currentHistoryIndex`), the canvas
raster (`pixels`), and the mutable drawing-context attributes
(`globalCompositeOperation`, `lineWidth`, and the current path built by
`beginPath`/`moveTo`/`lineTo`). -/
structure CanvasState (σ : Type) where
  isDrawing : Bool
  isEraser : Bool
  history : List σ
  redoHistory : List σ
  currentHistoryIndex : Int
  pixels : σ
  globalCompositeOperation : CompositeOp
  lineWidth : Nat
  path : List (Int × Int)
deriving DecidableEq, Repr

variable {σ : Type} [Inhabited σ]

/-- JavaScript array indexing `l[i]` with a (possibly negative) index:
in-bounds reads return the element, anything else returns `undefined`,
modelled by `default`. -/
def jsGet (l : List σ) (i : Int) : σ :=
  if 0 ≤ i then l.getD i.toNat default else default

/-- The state after mount: blank 1280x720 canvas, empty history,
`currentHistoryIndex = -1`, pen defaults from the 2D context. -/
def initialState : CanvasState σ :=
  { isDrawing := false
    isEraser := false
    history := []
    redoHistory := []
    currentHistoryIndex := -1
    pixels := default
    globalCompositeOperation := .sourceOver
    lineWidth := 1
    path := [] }

/-- Handler `saveStateToHistory`: capture `canvas.toDataURL()` (the current raster),
trim the history to `currentHistoryIndex + 1` entries when the cursor sits
strictly before the last entry, append the snapshot, advance the cursor, and
clear the redo history. -/
def saveStateToHistory (s : CanvasState σ) : CanvasState σ :=
  let imageData := s.pixels
  let trimmed :=
    if s.currentHistoryIndex < (s.history.length : Int) - 1 then
      s.history.take (s.currentHistoryIndex + 1).toNat
    else
      s.history
  { s with
    history := trimmed ++ [imageData]
    currentHistoryIndex := s.currentHistoryIndex + 1
    redoHistory := [] }

/-- Handler `startDrawing`: only buttons 0 (primary) and 2 (secondary) start a
stroke; `beginPath`/`moveTo` reset the path, `isDrawing` becomes true, and
the tool mode is selected — secondary button or the eraser toggle picks
`destination-out` with width 20, otherwise `source-over` with width 2. -/
def startDrawing (e : MouseEvent) (s : CanvasState σ) : CanvasState σ :=
  if e.button = 0 ∨ e.button = 2 then
    let s1 := { s with path := [(e.offsetX, e.offsetY)], isDrawing := true }
    if e.button = 2 ∨ s.isEraser then
      { s1 with globalCompositeOperation := .destinationOut, lineWidth := 20 }
    else
      { s1 with globalCompositeOperation := .sourceOver, lineWidth := 2 }
  else
    s

/-- Handler `draw`: a no-op unless a stroke is active; otherwise `lineTo` extends the
path and `ctx.stroke()` composites it onto the raster via the abstract
`render` function. -/
def draw (render : CompositeOp → Nat → List (Int × Int) → σ → σ)
    (e : MouseEvent) (s : CanvasState σ) : CanvasState σ :=
  if s.isDrawing then
    { s with
      path := s.path ++ [(e.offsetX, e.offsetY)]
      pixels := render s.globalCompositeOperation s.lineWidth
        (s.path ++ [(e.offsetX, e.offsetY)]) s.pixels }
  else
    s

/-- Handler `stopDrawing`: `closePath` (no raster effect), clear `isDrawing`, and
commit the raster through `saveStateToHistory`.  There is no check that a
stroke was actually active. -/
def stopDrawing (s : CanvasState σ) : CanvasState σ :=
  saveStateToHistory { s with isDrawing := false }

/-- Handler `undoLastStroke` with the decode applied synchronously: when
`currentHistoryIndex > 0`, push `history[currentHistoryIndex]` onto the redo
history, decrement the cursor, and redraw `history[currentHistoryIndex - 1]`
(clear + `drawImage`); otherwise do nothing. -/
def undoLastStroke (s : CanvasState σ) : CanvasState σ :=
  if s.currentHistoryIndex > 0 then
    let prevState := jsGet s.history (s.currentHistoryIndex - 1)
    { s with
      redoHistory := s.redoHistory ++ [jsGet s.history s.currentHistoryIndex]
      currentHistoryIndex := s.currentHistoryIndex - 1
      pixels := prevState }
  else
    s

/-- Handler `redoLastStroke` with the decode applied synchronously: when the redo
history is non-empty, redraw its last entry, append that entry to the
history, advance the cursor, and drop the entry from the redo history;
otherwise do nothing. -/
def redoLastStroke (s : CanvasState σ) : CanvasState σ :=
  if s.redoHistory.length > 0 then
    let lastUndone := jsGet s.redoHistory ((s.redoHistory.length : Int) - 1)
    { s with
      pixels := lastUndone
      history := s.history ++ [lastUndone]
      currentHistoryIndex := s.currentHistoryIndex + 1
      redoHistory := s.redoHistory.take (s.redoHistory.length - 1) }
  else
    s

/-- The external events the component reacts to: the four mouse handlers
wired on the `<canvas>` element and the two global keyboard shortcuts
(control/command + z and control/command + y). -/
inductive Event where
  | mouseDown (button : Nat) (x y : Int)
  | mouseMove (x y : Int)
  | mouseUp
  | mouseLeave
  | keyZ
  | keyY
deriving DecidableEq, Repr

/-- Event dispatch: `onMouseDown → startDrawing`, `onMouseMove → draw`,
`onMouseUp` and `onMouseLeave → stopDrawing`, ctrl/cmd-z → `undoLastStroke`,
ctrl/cmd-y → `redoLastStroke`. -/
def step (render : CompositeOp → Nat → List (Int × Int) → σ → σ) :
    Event → CanvasState σ → CanvasState σ
  | .mouseDown b x y, s => startDrawing ⟨b, x, y⟩ s
  | .mouseMove x y, s => draw render ⟨0, x, y⟩ s
  | .mouseUp, s => stopDrawing s
  | .mouseLeave, s => stopDrawing s
  | .keyZ, s => undoLastStroke s
  | .keyY, s => redoLastStroke s

/-- Run a list of events from a state. -/
def run (render : CompositeOp → Nat → List (Int × Int) → σ → σ)
    (es : List Event) (s : CanvasState σ) : CanvasState σ :=
  es.foldl (fun t e => step render e t) s

/-- Holds (as `true`) exactly on the pointer events a stroke in progress consists of
(press and moves), used to describe "undo, then complete a new stroke"
sequences. -/
def isStrokeEvent : Event → Bool
  | .mouseDown _ _ _ => true
  | .mouseMove _ _ => true
  | _ => false

/-- State of the widget together with the decode requests issued by
`undoLastStroke`/`redoLastStroke` whose `img.onload` has not fired yet,
in issue order.  Each request records the snapshot its callback will draw. -/
structure AsyncState (σ : Type) where
  core : CanvasState σ
  pending : List σ
deriving DecidableEq, Repr

/-- Handler `undoLastStroke` as written: the history bookkeeping happens
synchronously, while `clearRect` + `drawImage` run only when the decode of
`history[currentHistoryIndex - 1]` completes, so the target is merely queued
here. -/
def undoIssue (a : AsyncState σ) : AsyncState σ :=
  if a.core.currentHistoryIndex > 0 then
    { core :=
        { a.core with
          redoHistory := a.core.redoHistory
            ++ [jsGet a.core.history a.core.currentHistoryIndex]
          currentHistoryIndex := a.core.currentHistoryIndex - 1 }
      pending := a.pending
        ++ [jsGet a.core.history (a.core.currentHistoryIndex - 1)] }
  else a

/-- Handler `redoLastStroke` as written, with the decode of the redone snapshot
queued instead of applied. -/
def redoIssue (a : AsyncState σ) : AsyncState σ :=
  if a.core.redoHistory.length > 0 then
    { core :=
        { a.core with
          history := a.core.history
            ++ [jsGet a.core.redoHistory
                  ((a.core.redoHistory.length : Int) - 1)]
          currentHistoryIndex := a.core.currentHistoryIndex + 1
          redoHistory := a.core.redoHistory.take
            (a.core.redoHistory.length - 1) }
      pending := a.pending
        ++ [jsGet a.core.redoHistory
              ((a.core.redoHistory.length : Int) - 1)] }
  else a

/-- The `img.onload` callback of pending request `i` fires: it
unconditionally clears the canvas and draws its target snapshot — the code
performs no check that the request is still the most recent one. -/
def completeDecode (a : AsyncState σ) (i : Nat) : AsyncState σ :=
  match a.pending[i]? with
  | some t => { a with core := { a.core with pixels := t } }
  | none => a

/-- Fire the pending decode callbacks in the given wall-clock order. -/
def runDecodes (a : AsyncState σ) (order : List Nat) : AsyncState σ :=
  order.foldl completeDecode a

/-- A concrete rasteriser for witnesses: each stroke segment bumps an
abstract raster counter, so successive strokes yield distinct snapshots. -/
def natRender : CompositeOp → Nat → List (Int × Int) → Nat → Nat :=
  fun _ _ _ p => p + 1

/-- The pointer events of one complete stroke drawn near `x`. -/
def strokeAt (x : Int) : List Event :=
  [.mouseDown 0 x x, .mouseMove (x + 1) (x + 1), .mouseUp]

/-- Spec scenario prefix: stroke A, stroke B, undo, undo. -/
def scenTwoUndos : List Event :=
  strokeAt 0 ++ strokeAt 10 ++ [.keyZ, .keyZ]

/-- Full spec scenario: stroke A, stroke B, undo, undo, redo, stroke C,
redo. -/
def scenFull : List Event :=
  scenTwoUndos ++ [.keyY] ++ strokeAt 20 ++ [.keyY]

/-- A concrete mid-history state for witnesses: three snapshots, cursor on
the second, the third undone onto the redo history. -/
def sampleInv : CanvasState Nat :=
  { (initialState : CanvasState Nat) with
    history := [1, 2, 3]
    redoHistory := [3]
    currentHistoryIndex := 1
    pixels := 2 }

/-- A concrete two-snapshot state with the cursor at the end, for the
undo-then-redo pair. -/
def pairState : CanvasState Nat :=
  { (initialState : CanvasState Nat) with
    history := [1, 2]
    currentHistoryIndex := 1
    pixels := 2 }

/-- A concrete three-snapshot state with no decode pending, for the
decode-ordering analysis. -/
def asyncStart : AsyncState Nat :=
  { core :=
      { (initialState : CanvasState Nat) with
        history := [1, 2, 3]
        currentHistoryIndex := 2
        pixels := 3 }
    pending := [] }

/-- Run an event list on the concrete `Nat` raster from the mount state. -/
def runScen (es : List Event) : CanvasState Nat :=
  run natRender es initialState

/-- The index part of the documented history invariant:
`-1 <= currentHistoryIndex <= length history - 1`. -/
def IndexInv (s : CanvasState σ) : Prop :=
  -1 ≤ s.currentHistoryIndex ∧
    s.currentHistoryIndex ≤ (s.history.length : Int) - 1

instance (s : CanvasState σ) : Decidable (IndexInv s) := by
  unfold IndexInv; infer_instance

/-- The full state invariant maintained by the component: the index bounds,
together with the fact that the redo history read backwards coincides with
the run of history entries that starts right after the cursor (undo pushes
`history[currentHistoryIndex]` without removing it from the history, so the
undone snapshots stay in place there). -/
def StateInv (s : CanvasState σ) : Prop :=
  IndexInv s ∧
    s.redoHistory.reverse
      = (s.history.drop (s.currentHistoryIndex + 1).toNat).take
          s.redoHistory.length

instance [DecidableEq σ] (s : CanvasState σ) : Decidable (StateInv s) := by
  unfold StateInv; infer_instance

theorem stateInv_iff (s : CanvasState σ) :
    StateInv s ↔ IndexInv s ∧
      ∃ rest, s.history.drop (s.currentHistoryIndex + 1).toNat
        = s.redoHistory.reverse ++ rest := by
  unfold StateInv
  refine and_congr_right fun _ => ⟨fun h => ?_, fun hex => ?_⟩
  · refine ⟨(s.history.drop (s.currentHistoryIndex + 1).toNat).drop
      s.redoHistory.length, ?_⟩
    conv_lhs => rw [← List.take_append_drop s.redoHistory.length
      (s.history.drop (s.currentHistoryIndex + 1).toNat)]
    rw [← h]
  · obtain ⟨rest, hd⟩ := hex
    rw [hd, List.take_append_of_le_length (by simp),
      List.take_of_length_le (by simp)]

theorem exists_rest_nil (l : List σ) :
    ∃ rest, l = ([] : List σ).reverse ++ rest :=
  ⟨l, by simp⟩

theorem stateInv_initialState : StateInv (initialState : CanvasState σ) := by
  rw [stateInv_iff]
  exact ⟨⟨by simp [initialState], by simp [initialState]⟩, [],
    by simp [initialState]⟩

theorem stateInv_saveStateToHistory {s : CanvasState σ} (hs : StateInv s) :
    StateInv (saveStateToHistory s) := by
  obtain ⟨⟨h0, h1⟩, -⟩ := hs
  rw [stateInv_iff]
  simp only [saveStateToHistory, IndexInv]
  split_ifs with hc
  · refine ⟨⟨by omega, ?_⟩, exists_rest_nil _⟩
    simp [List.length_take]
    omega
  · refine ⟨⟨by omega, by simp; omega⟩, exists_rest_nil _⟩

theorem stateInv_stopDrawing {s : CanvasState σ} (hs : StateInv s) :
    StateInv (stopDrawing s) :=
  stateInv_saveStateToHistory hs

theorem stateInv_startDrawing {s : CanvasState σ} (e : MouseEvent)
    (hs : StateInv s) : StateInv (startDrawing e s) := by
  unfold startDrawing
  split_ifs <;> exact hs

theorem stateInv_draw {s : CanvasState σ}
    (render : CompositeOp → Nat → List (Int × Int) → σ → σ) (e : MouseEvent)
    (hs : StateInv s) : StateInv (draw render e s) := by
  unfold draw
  split_ifs <;> exact hs

theorem stateInv_undoLastStroke {s : CanvasState σ} (hs : StateInv s) :
    StateInv (undoLastStroke s) := by
  rw [stateInv_iff] at hs ⊢
  obtain ⟨⟨h0, h1⟩, rest, hd⟩ := hs
  by_cases hgt : s.currentHistoryIndex > 0
  case neg => simpa [undoLastStroke, hgt] using ⟨⟨h0, h1⟩, rest, hd⟩
  have hin : s.currentHistoryIndex.toNat < s.history.length := by omega
  simp only [undoLastStroke, if_pos hgt]
  refine ⟨⟨by simp; omega, by simp; omega⟩, rest, ?_⟩
  simp only [List.reverse_append, List.reverse_singleton, List.singleton_append]
  have hstep : s.currentHistoryIndex - 1 + 1 = s.currentHistoryIndex := by ring
  rw [hstep]
  have hd2 : List.drop s.currentHistoryIndex.toNat s.history
      = s.history.get ⟨s.currentHistoryIndex.toNat, hin⟩ ::
        List.drop (s.currentHistoryIndex.toNat + 1) s.history :=
    List.drop_eq_getElem_cons hin
  have hnat : s.currentHistoryIndex.toNat + 1
      = (s.currentHistoryIndex + 1).toNat := by omega
  have hjs : jsGet s.history s.currentHistoryIndex
      = s.history.get ⟨s.currentHistoryIndex.toNat, hin⟩ := by
    simp [jsGet, (by omega : (0 : Int) ≤ s.currentHistoryIndex),
      List.getElem?_eq_getElem hin]
  rw [hd2, hnat, hd, hjs]
  simp

theorem stateInv_redoLastStroke {s : CanvasState σ} (hs : StateInv s) :
    StateInv (redoLastStroke s) := by
  rw [stateInv_iff] at hs ⊢
  obtain ⟨⟨h0, h1⟩, rest, hd⟩ := hs
  by_cases hlen : s.redoHistory.length > 0
  case neg => simpa [redoLastStroke, hlen] using ⟨⟨h0, h1⟩, rest, hd⟩
  have hne : s.redoHistory ≠ [] := by
    cases hr : s.redoHistory <;> simp [hr] at hlen ⊢
  -- decompose the redo history as dropLast ++ [getLast]
  have hsplit : s.redoHistory.dropLast ++ [s.redoHistory.getLast hne]
      = s.redoHistory := List.dropLast_append_getLast hne
  have hrev : s.redoHistory.reverse
      = s.redoHistory.getLast hne :: s.redoHistory.dropLast.reverse := by
    conv_lhs => rw [← hsplit]
    simp
  -- the drop after the cursor starts with the last redo entry
  have hd2 : List.drop (s.currentHistoryIndex + 1).toNat s.history
      = s.redoHistory.getLast hne ::
        (s.redoHistory.dropLast.reverse ++ rest) := by
    rw [hd, hrev]; simp
  have hin : (s.currentHistoryIndex + 1).toNat < s.history.length := by
    have := congrArg List.length hd2
    simp [List.length_drop] at this
    omega
  have hlast : jsGet s.redoHistory ((s.redoHistory.length : Int) - 1)
      = s.redoHistory.getLast hne := by
    have hn : ((s.redoHistory.length : Int) - 1).toNat
        = s.redoHistory.length - 1 := by omega
    simp [jsGet, (by omega : (0 : Int) ≤ (s.redoHistory.length : Int) - 1), hn,
      List.getElem?_eq_getElem
        (by omega : s.redoHistory.length - 1 < s.redoHistory.length),
      List.getLast_eq_getElem]
  simp only [redoLastStroke, if_pos hlen]
  refine ⟨⟨by simp; omega, by simp; omega⟩, rest ++ [jsGet s.redoHistory
    ((s.redoHistory.length : Int) - 1)], ?_⟩
  have hnat2 : (s.currentHistoryIndex + 1 + 1).toNat
      = (s.currentHistoryIndex + 1).toNat + 1 := by omega
  have htail : List.drop ((s.currentHistoryIndex + 1).toNat + 1) s.history
      = s.redoHistory.dropLast.reverse ++ rest := by
    have := congrArg List.tail hd2
    simpa [List.tail_drop] using this
  rw [List.drop_append_of_le_length (by omega), hnat2, htail,
    ← List.dropLast_eq_take]
  simp [hlast, List.append_assoc]

theorem stateInv_step {s : CanvasState σ}
    (render : CompositeOp → Nat → List (Int × Int) → σ → σ) (e : Event)
    (hs : StateInv s) : StateInv (step render e s) := by
  cases e with
  | mouseDown b x y => exact stateInv_startDrawing _ hs
  | mouseMove x y => exact stateInv_draw render _ hs
  | mouseUp => exact stateInv_stopDrawing hs
  | mouseLeave => exact stateInv_stopDrawing hs
  | keyZ => exact stateInv_undoLastStroke hs
  | keyY => exact stateInv_redoLastStroke hs

theorem jsGet_append_left {l l' : List σ} {i : Int} (h0 : 0 ≤ i)
    (h : i.toNat < l.length) : jsGet (l ++ l') i = jsGet l i := by
  simp [jsGet, h0, List.getElem?_append_left h]

theorem jsGet_append_singleton {l : List σ} (x : σ) {i : Int} (h0 : 0 ≤ i)
    (h : i.toNat = l.length) : jsGet (l ++ [x]) i = x := by
  simp [jsGet, h0, List.getElem?_append, h]

/-- After an actual undo the raster shows the history entry at the
decremented cursor. -/
theorem undoLastStroke_pixels {s : CanvasState σ}
    (h : 0 < s.currentHistoryIndex) :
    (undoLastStroke s).pixels
      = jsGet (undoLastStroke s).history
          (undoLastStroke s).currentHistoryIndex := by
  simp [undoLastStroke, h]

/-- After an actual redo the raster shows the history entry at the advanced
cursor (this needs the redo-history invariant: the redone snapshot is
appended at the end of the history, yet the cursor generally points strictly
before the end). -/
theorem redoLastStroke_pixels {s : CanvasState σ} (hs : StateInv s)
    (h : 0 < s.redoHistory.length) :
    (redoLastStroke s).pixels
      = jsGet (redoLastStroke s).history
          (redoLastStroke s).currentHistoryIndex := by
  rw [stateInv_iff] at hs
  obtain ⟨⟨h0, h1⟩, rest, hd⟩ := hs
  have hne : s.redoHistory ≠ [] := by
    cases hr : s.redoHistory <;> simp [hr] at h ⊢
  have hrev : s.redoHistory.reverse
      = s.redoHistory.getLast hne :: s.redoHistory.dropLast.reverse := by
    conv_lhs => rw [← List.dropLast_append_getLast hne]
    simp
  have hd2 : List.drop (s.currentHistoryIndex + 1).toNat s.history
      = s.redoHistory.getLast hne ::
        (s.redoHistory.dropLast.reverse ++ rest) := by
    rw [hd, hrev]; simp
  have hin : (s.currentHistoryIndex + 1).toNat < s.history.length := by
    have := congrArg List.length hd2
    simp [List.length_drop] at this
    omega
  have hH : s.history[(s.currentHistoryIndex + 1).toNat]?
      = some (s.redoHistory.getLast hne) := by
    have := congrArg (fun l => l[0]?) hd2
    simpa [List.getElem?_drop] using this
  have hlast : jsGet s.redoHistory ((s.redoHistory.length : Int) - 1)
      = s.redoHistory.getLast hne := by
    have hn : ((s.redoHistory.length : Int) - 1).toNat
        = s.redoHistory.length - 1 := by omega
    simp [jsGet, (by omega : (0 : Int) ≤ (s.redoHistory.length : Int) - 1),
      hn,
      List.getElem?_eq_getElem
        (by omega : s.redoHistory.length - 1 < s.redoHistory.length),
      List.getLast_eq_getElem]
  simp only [redoLastStroke, if_pos h]
  rw [hlast, jsGet_append_left (by omega) hin]
  simp [jsGet, (by omega : (0 : Int) ≤ s.currentHistoryIndex + 1), hH]

/-- The commit performed by `stopDrawing`, spelled out: `isDrawing` cleared,
history truncated to `currentHistoryIndex + 1` entries and the raster
appended, cursor advanced, redo history cleared, raster untouched, and the
new `history[currentHistoryIndex]` equal to the raster. -/
theorem stopDrawing_commit {s : CanvasState σ} (hIdx : IndexInv s) :
    (stopDrawing s).isDrawing = false ∧
    (stopDrawing s).history
      = s.history.take (s.currentHistoryIndex + 1).toNat ++ [s.pixels] ∧
    (stopDrawing s).currentHistoryIndex = s.currentHistoryIndex + 1 ∧
    (stopDrawing s).redoHistory = [] ∧
    (stopDrawing s).pixels = s.pixels ∧
    jsGet (stopDrawing s).history (stopDrawing s).currentHistoryIndex
      = s.pixels := by
  obtain ⟨h0, h1⟩ := hIdx
  have hhist : (stopDrawing s).history
      = s.history.take (s.currentHistoryIndex + 1).toNat ++ [s.pixels] := by
    have h2 : (stopDrawing s).history
        = (if s.currentHistoryIndex < (s.history.length : Int) - 1 then
            s.history.take (s.currentHistoryIndex + 1).toNat
          else s.history) ++ [s.pixels] := rfl
    rw [h2]
    split_ifs with hc
    · rfl
    · rw [List.take_of_length_le (by omega)]
  have hlen : (s.history.take (s.currentHistoryIndex + 1).toNat).length
      = (s.currentHistoryIndex + 1).toNat := by
    simp [List.length_take]
    omega
  have hjs : jsGet
      (s.history.take (s.currentHistoryIndex + 1).toNat ++ [s.pixels])
      (s.currentHistoryIndex + 1) = s.pixels :=
    jsGet_append_singleton s.pixels (by omega) (by omega)
  refine ⟨rfl, hhist, rfl, rfl, rfl, ?_⟩
  have hidx : (stopDrawing s).currentHistoryIndex
      = s.currentHistoryIndex + 1 := rfl
  rw [hhist, hidx]
  exact hjs

/-- An undo with the cursor at or below 0 changes nothing. -/
theorem undoLastStroke_noop {s : CanvasState σ}
    (h : s.currentHistoryIndex ≤ 0) : undoLastStroke s = s := by
  simp [undoLastStroke, not_lt.mpr h]

/-- An actual undo, spelled out as a record update. -/
theorem undoLastStroke_spec_pos {s : CanvasState σ}
    (h : 0 < s.currentHistoryIndex) :
    undoLastStroke s
      = { s with
          redoHistory := s.redoHistory
            ++ [jsGet s.history s.currentHistoryIndex]
          currentHistoryIndex := s.currentHistoryIndex - 1
          pixels := jsGet s.history (s.currentHistoryIndex - 1) } := by
  simp [undoLastStroke, h]

/-- A redo with an empty redo history changes nothing. -/
theorem redoLastStroke_noop {s : CanvasState σ}
    (h : s.redoHistory = []) : redoLastStroke s = s := by
  simp [redoLastStroke, h]

/-- A pointer move with no active stroke changes nothing. -/
theorem draw_noop (render : CompositeOp → Nat → List (Int × Int) → σ → σ)
    {s : CanvasState σ} (e : MouseEvent) (h : s.isDrawing = false) :
    draw render e s = s := by
  simp [draw, h]

theorem indexInv_saveStateToHistory {s : CanvasState σ} (hs : IndexInv s) :
    IndexInv (saveStateToHistory s) := by
  obtain ⟨h0, h1⟩ := hs
  simp only [saveStateToHistory, IndexInv]
  split_ifs with hc
  · refine ⟨by omega, ?_⟩
    simp [List.length_take]
    omega
  · refine ⟨by omega, by simp; omega⟩

theorem indexInv_stopDrawing {s : CanvasState σ} (hs : IndexInv s) :
    IndexInv (stopDrawing s) :=
  indexInv_saveStateToHistory hs

theorem indexInv_undoLastStroke {s : CanvasState σ} (hs : IndexInv s) :
    IndexInv (undoLastStroke s) := by
  obtain ⟨h0, h1⟩ := hs
  by_cases hgt : s.currentHistoryIndex > 0
  · simp only [undoLastStroke, if_pos hgt]
    exact ⟨by simp; omega, by simp; omega⟩
  · simpa [undoLastStroke, hgt] using ⟨h0, h1⟩

theorem indexInv_redoLastStroke {s : CanvasState σ} (hs : IndexInv s) :
    IndexInv (redoLastStroke s) := by
  obtain ⟨h0, h1⟩ := hs
  by_cases hlen : s.redoHistory.length > 0
  · simp only [redoLastStroke, if_pos hlen]
    exact ⟨by simp; omega, by simp; omega⟩
  · simpa [redoLastStroke, hlen] using ⟨h0, h1⟩

theorem indexInv_step {s : CanvasState σ}
    (render : CompositeOp → Nat → List (Int × Int) → σ → σ) (e : Event)
    (hs : IndexInv s) : IndexInv (step render e s) := by
  cases e with
  | mouseDown b x y =>
      show IndexInv (startDrawing _ s)
      unfold startDrawing
      split_ifs <;> exact hs
  | mouseMove x y =>
      show IndexInv (draw render _ s)
      unfold draw
      split_ifs <;> exact hs
  | mouseUp => exact indexInv_stopDrawing hs
  | mouseLeave => exact indexInv_stopDrawing hs
  | keyZ => exact indexInv_undoLastStroke hs
  | keyY => exact indexInv_redoLastStroke hs

/-- C3: `endStroke` — invoked on pointer-up and on pointer-leave — commits
the Surface state: the history is truncated to `currentHistoryIndex + 1`
entries (discarding any previously-undone future), a snapshot of the current
raster is appended, the cursor advances, the redo history is cleared,
`isDrawing` becomes false, and afterwards `history[currentHistoryIndex]` is
exactly the raster the live Surface shows. -/
theorem C3_endStroke_commit
    (render : CompositeOp → Nat → List (Int × Int) → σ → σ)
    (s : CanvasState σ) (hIdx : IndexInv s) :
    step render .mouseUp s = stopDrawing s ∧
    step render .mouseLeave s = stopDrawing s ∧
    (stopDrawing s).isDrawing = false ∧
    (stopDrawing s).history
      = s.history.take (s.currentHistoryIndex + 1).toNat ++ [s.pixels] ∧
    (stopDrawing s).currentHistoryIndex = s.currentHistoryIndex + 1 ∧
    (stopDrawing s).redoHistory = [] ∧
    (stopDrawing s).pixels = s.pixels ∧
    jsGet (stopDrawing s).history (stopDrawing s).currentHistoryIndex
      = s.pixels := by
  obtain ⟨hb, hc, hd, he', hf, hg⟩ := stopDrawing_commit hIdx
  exact ⟨rfl, rfl, hb, hc, hd, he', hf, hg⟩

theorem C3_endStroke_commit_witness :
    (stopDrawing sampleInv).history
      = sampleInv.history.take (sampleInv.currentHistoryIndex + 1).toNat
        ++ [sampleInv.pixels] :=
  (C3_endStroke_commit natRender sampleInv (by decide)).2.2.2.1

/-- C5: with `currentHistoryIndex > 0`, `undo` pushes
`history[currentHistoryIndex]` onto the redo history, decrements the cursor,
and restores the Surface to `history[currentHistoryIndex]` at the
decremented cursor; with `currentHistoryIndex <= 0` it is a no-op. -/
theorem C5_undo_spec (s : CanvasState σ) :
    (0 < s.currentHistoryIndex →
      undoLastStroke s
        = { s with
            redoHistory := s.redoHistory
              ++ [jsGet s.history s.currentHistoryIndex]
            currentHistoryIndex := s.currentHistoryIndex - 1
            pixels := jsGet s.history (s.currentHistoryIndex - 1) }) ∧
    (s.currentHistoryIndex ≤ 0 → undoLastStroke s = s) :=
  ⟨fun h => undoLastStroke_spec_pos h, fun h => undoLastStroke_noop h⟩

theorem C5_undo_spec_witness :
    undoLastStroke sampleInv
      = { sampleInv with
          redoHistory := sampleInv.redoHistory
            ++ [jsGet sampleInv.history sampleInv.currentHistoryIndex]
          currentHistoryIndex := sampleInv.currentHistoryIndex - 1
          pixels := jsGet sampleInv.history
            (sampleInv.currentHistoryIndex - 1) } ∧
    undoLastStroke (initialState : CanvasState Nat) = initialState :=
  ⟨(C5_undo_spec sampleInv).1 (by decide),
   (C5_undo_spec (initialState : CanvasState Nat)).2 (by decide)⟩

/-- C6: after an `undo` followed by completing a new stroke (any sequence of
pointer-press/move events, then the commit of `stopDrawing`), the redo
history is empty and a further `redo` is a no-op — the undone branch is
unreachable. -/
theorem C6_branch_discard
    (render : CompositeOp → Nat → List (Int × Int) → σ → σ)
    (s : CanvasState σ) (es : List Event)
    (hes : ∀ e ∈ es, isStrokeEvent e = true) :
    (stopDrawing (run render es (undoLastStroke s))).redoHistory = [] ∧
    redoLastStroke (stopDrawing (run render es (undoLastStroke s)))
      = stopDrawing (run render es (undoLastStroke s)) :=
  ⟨rfl, redoLastStroke_noop rfl⟩

theorem C6_branch_discard_witness :
    redoLastStroke
        (stopDrawing (run natRender [.mouseDown 0 20 20, .mouseMove 21 21]
          (undoLastStroke sampleInv)))
      = stopDrawing (run natRender [.mouseDown 0 20 20, .mouseMove 21 21]
          (undoLastStroke sampleInv)) :=
  (C6_branch_discard natRender sampleInv
    [.mouseDown 0 20 20, .mouseMove 21 21] (by decide)).2

/-- C7: every precondition violation is a silent no-op leaving the whole
state unchanged — undo at cursor 0 (or below, which covers the empty
history, whose invariant forces cursor -1), redo with an empty redo history,
and a pointer move with no active stroke.  All operations are total
functions; nothing is raised. -/
theorem C7_noop_on_violation
    (render : CompositeOp → Nat → List (Int × Int) → σ → σ) :
    (∀ s : CanvasState σ, s.currentHistoryIndex ≤ 0 →
      undoLastStroke s = s) ∧
    (∀ s : CanvasState σ, IndexInv s → s.history = [] →
      undoLastStroke s = s) ∧
    (∀ s : CanvasState σ, s.redoHistory = [] → redoLastStroke s = s) ∧
    (∀ (s : CanvasState σ) (e : MouseEvent), s.isDrawing = false →
      draw render e s = s) := by
  refine ⟨fun s h => undoLastStroke_noop h, fun s hIdx hh => ?_,
    fun s h => redoLastStroke_noop h, fun s e h => draw_noop render e h⟩
  obtain ⟨h0, h1⟩ := hIdx
  refine undoLastStroke_noop ?_
  rw [hh] at h1
  simpa using h1.trans (by norm_num)

theorem C7_noop_on_violation_witness :
    undoLastStroke (initialState : CanvasState Nat) = initialState ∧
    redoLastStroke pairState = pairState ∧
    draw natRender ⟨0, 5, 5⟩ pairState = pairState :=
  ⟨(C7_noop_on_violation natRender).2.1 initialState (by decide) (by decide),
   (C7_noop_on_violation natRender).2.2.1 pairState (by decide),
   (C7_noop_on_violation natRender).2.2.2 pairState ⟨0, 5, 5⟩ (by decide)⟩

/-- C8: a press of the secondary button, or any stroke-starting press with
the eraser toggle on, selects erase mode (`destination-out`, width 20); a
primary-button press with the toggle off selects pen mode (`source-over`,
width 2); any other button leaves the state untouched. -/
theorem C8_mode_selection (e : MouseEvent) (s : CanvasState σ) :
    ((e.button = 0 ∨ e.button = 2) → (e.button = 2 ∨ s.isEraser = true) →
      startDrawing e s
        = { s with
            path := [(e.offsetX, e.offsetY)]
            isDrawing := true
            globalCompositeOperation := .destinationOut
            lineWidth := 20 }) ∧
    (e.button = 0 → s.isEraser = false →
      startDrawing e s
        = { s with
            path := [(e.offsetX, e.offsetY)]
            isDrawing := true
            globalCompositeOperation := .sourceOver
            lineWidth := 2 }) ∧
    (e.button ≠ 0 → e.button ≠ 2 → startDrawing e s = s) := by
  refine ⟨fun h1 h2 => ?_, fun h1 h2 => ?_, fun h1 h2 => ?_⟩
  · unfold startDrawing
    rw [if_pos h1, if_pos h2]
  · unfold startDrawing
    rw [if_pos (Or.inl h1), if_neg (by simp [h1, h2])]
  · unfold startDrawing
    rw [if_neg (by simp [h1, h2])]

theorem C8_mode_selection_witness :
    startDrawing ⟨2, 3, 4⟩ pairState
      = { pairState with
          path := [(3, 4)]
          isDrawing := true
          globalCompositeOperation := .destinationOut
          lineWidth := 20 } ∧
    startDrawing ⟨0, 3, 4⟩ pairState
      = { pairState with
          path := [(3, 4)]
          isDrawing := true
          globalCompositeOperation := .sourceOver
          lineWidth := 2 } ∧
    startDrawing ⟨1, 3, 4⟩ pairState = pairState :=
  ⟨(C8_mode_selection ⟨2, 3, 4⟩ pairState).1 (by decide) (by decide),
   (C8_mode_selection ⟨0, 3, 4⟩ pairState).2.1 (by decide) (by decide),
   (C8_mode_selection ⟨1, 3, 4⟩ pairState).2.2 (by decide) (by decide)⟩

/-- C9: `stopDrawing` has no active-stroke precondition: with
`isDrawing = false`, a pointer-up or pointer-leave still performs the full
commit — appends a snapshot identical to the current raster, advances the
cursor, clears the redo history — and in the at-rest case (cursor on the
last entry) the history literally grows by a duplicate of the raster. -/
theorem C9_commit_without_stroke
    (render : CompositeOp → Nat → List (Int × Int) → σ → σ)
    (s : CanvasState σ) (hdraw : s.isDrawing = false) (hIdx : IndexInv s) :
    step render .mouseUp s = stopDrawing s ∧
    step render .mouseLeave s = stopDrawing s ∧
    (stopDrawing s).history
      = s.history.take (s.currentHistoryIndex + 1).toNat ++ [s.pixels] ∧
    (stopDrawing s).currentHistoryIndex = s.currentHistoryIndex + 1 ∧
    (stopDrawing s).redoHistory = [] ∧
    jsGet (stopDrawing s).history (stopDrawing s).currentHistoryIndex
      = s.pixels ∧
    (s.currentHistoryIndex = (s.history.length : Int) - 1 →
      (stopDrawing s).history = s.history ++ [s.pixels]) := by
  obtain ⟨h0, h1⟩ := hIdx
  obtain ⟨-, hc, hd, he', -, hg⟩ := stopDrawing_commit ⟨h0, h1⟩
  refine ⟨rfl, rfl, hc, hd, he', hg, fun hend => ?_⟩
  rw [hc, List.take_of_length_le (by omega)]

theorem C9_commit_without_stroke_witness :
    (stopDrawing pairState).history
      = pairState.history ++ [pairState.pixels] :=
  (C9_commit_without_stroke natRender pairState (by decide)
    (by decide)).2.2.2.2.2.2 (by decide)

/-- C1 (counterexample): on the concrete scenario "stroke A, stroke B, undo,
undo" the cursor ends at 0, not -1, and the raster still shows the state
after A (snapshot value 1), not a blank canvas; after the subsequent redo
the raster shows the state after B (value 2), not the state after A; and at
the end of the full scenario the history is `[A, B, C]` = `[1, 2, 3]`, not
`[A, C]` = `[1, 3]`. -/
theorem C1_scenario_counterexample :
    (runScen scenTwoUndos).currentHistoryIndex = 0 ∧
    (runScen scenTwoUndos).currentHistoryIndex ≠ -1 ∧
    (runScen scenTwoUndos).pixels = (runScen (strokeAt 0)).pixels ∧
    (runScen scenTwoUndos).pixels ≠ 0 ∧
    (runScen (scenTwoUndos ++ [.keyY])).pixels
      ≠ (runScen (strokeAt 0)).pixels ∧
    (runScen scenFull).history = [1, 2, 3] ∧
    (runScen scenFull).history
      ≠ [(runScen (strokeAt 0)).pixels, (runScen scenFull).pixels] := by
  decide

set_option maxHeartbeats 2000000 in
/-- C1 (amended): in the scenario "stroke A, stroke B, undo, undo, redo,
stroke C, redo" the second undo is a no-op (the guard requires
`currentHistoryIndex > 0`, so the cursor stays at 0 and the Surface keeps
showing the state after A; the blank state is unreachable); the redo then
shows the state after B — not A — and re-appends B, giving history
`[A, B, B]`; committing stroke C truncates to `[A, B]` and appends C; the
final redo is a no-op and the history ends as `[A, B, C]` with the cursor on
C. -/
theorem C1_scenario_amended
    (render : CompositeOp → Nat → List (Int × Int) → σ → σ) :
    let A := render .sourceOver 2 [(0, 0), (1, 1)] (default : σ)
    let B := render .sourceOver 2 [(10, 10), (11, 11)] A
    let C := render .sourceOver 2 [(20, 20), (21, 21)] B
    let s2 := run render (strokeAt 0 ++ strokeAt 10) initialState
    let u1 := undoLastStroke s2
    let u2 := undoLastStroke u1
    let r1 := redoLastStroke u2
    let s3 := run render (strokeAt 20) r1
    let r2 := redoLastStroke s3
    s2.history = [A, B] ∧ s2.currentHistoryIndex = 1 ∧
    u1.pixels = A ∧ u1.currentHistoryIndex = 0 ∧
    u2 = u1 ∧
    r1.pixels = B ∧ r1.history = [A, B, B] ∧ r1.currentHistoryIndex = 1 ∧
    s3.history = [A, B, C] ∧ s3.currentHistoryIndex = 2 ∧
    s3.redoHistory = [] ∧
    r2 = s3 :=
  ⟨rfl, rfl, rfl, rfl, rfl, rfl, rfl, rfl, rfl, rfl, rfl, rfl⟩

/-- C4: from the mount state, every event handler preserves the documented
index invariant `-1 <= currentHistoryIndex <= length history - 1` (and the
full state invariant); and whenever an undo or redo actually fires, once its
decode is applied the raster equals `history[currentHistoryIndex]`. -/
theorem C4_invariant_preservation
    (render : CompositeOp → Nat → List (Int × Int) → σ → σ) :
    IndexInv (initialState : CanvasState σ) ∧
    (∀ (e : Event) (s : CanvasState σ), IndexInv s →
      IndexInv (step render e s)) ∧
    StateInv (initialState : CanvasState σ) ∧
    (∀ (e : Event) (s : CanvasState σ), StateInv s →
      StateInv (step render e s)) ∧
    (∀ s : CanvasState σ, 0 < s.currentHistoryIndex →
      (undoLastStroke s).pixels
        = jsGet (undoLastStroke s).history
            (undoLastStroke s).currentHistoryIndex) ∧
    (∀ s : CanvasState σ, StateInv s → 0 < s.redoHistory.length →
      (redoLastStroke s).pixels
        = jsGet (redoLastStroke s).history
            (redoLastStroke s).currentHistoryIndex) :=
  ⟨⟨by simp [initialState], by simp [initialState]⟩,
   fun e s hs => indexInv_step render e hs,
   stateInv_initialState,
   fun e s hs => stateInv_step render e hs,
   fun s h => undoLastStroke_pixels h,
   fun s hs h => redoLastStroke_pixels hs h⟩

theorem C4_invariant_preservation_witness :
    StateInv (step natRender Event.keyZ sampleInv) ∧
    (redoLastStroke sampleInv).pixels
      = jsGet (redoLastStroke sampleInv).history
          (redoLastStroke sampleInv).currentHistoryIndex :=
  ⟨(C4_invariant_preservation natRender).2.2.2.1 Event.keyZ sampleInv
      (by decide),
   (C4_invariant_preservation natRender).2.2.2.2.2 sampleInv (by decide)
      (by decide)⟩

/-- C10 (counterexample): from a two-snapshot state with the cursor on the
last entry, undo followed by redo brings the cursor back to its original
value — not one higher, as the claim states. -/
theorem C10_pair_counterexample :
    (redoLastStroke (undoLastStroke pairState)).currentHistoryIndex
      = pairState.currentHistoryIndex ∧
    (redoLastStroke (undoLastStroke pairState)).currentHistoryIndex
      ≠ pairState.currentHistoryIndex + 1 := by
  decide

/-- C10 (amended): for any in-bounds state with `currentHistoryIndex > 0`,
undo-then-redo (decodes in issue order) leaves the visible raster,
`history[currentHistoryIndex]`, the cursor, and the redo history unchanged,
yet is not a round trip: the snapshot at the cursor is appended to the
history again (it now also sits at the old end-of-history position, distinct
from the cursor), because undo copies it into the redo history without
removing it from the history and redo always appends to the end. -/
theorem C10_undo_redo_pair (s : CanvasState σ)
    (h1 : 0 < s.currentHistoryIndex)
    (h2 : s.currentHistoryIndex ≤ (s.history.length : Int) - 1) :
    (redoLastStroke (undoLastStroke s)).history
      = s.history ++ [jsGet s.history s.currentHistoryIndex] ∧
    (redoLastStroke (undoLastStroke s)).currentHistoryIndex
      = s.currentHistoryIndex ∧
    (redoLastStroke (undoLastStroke s)).redoHistory = s.redoHistory ∧
    (redoLastStroke (undoLastStroke s)).pixels
      = jsGet s.history s.currentHistoryIndex ∧
    jsGet (redoLastStroke (undoLastStroke s)).history
        (redoLastStroke (undoLastStroke s)).currentHistoryIndex
      = jsGet s.history s.currentHistoryIndex ∧
    jsGet (redoLastStroke (undoLastStroke s)).history
        (s.history.length : Int)
      = jsGet s.history s.currentHistoryIndex ∧
    s.currentHistoryIndex ≠ (s.history.length : Int) := by
  rw [undoLastStroke_spec_pos h1]
  have hlast : jsGet
      (s.redoHistory ++ [jsGet s.history s.currentHistoryIndex])
      (((s.redoHistory ++ [jsGet s.history s.currentHistoryIndex]).length :
          Int) - 1)
      = jsGet s.history s.currentHistoryIndex := by
    apply jsGet_append_singleton
    · simp
    · simp
  have hr : redoLastStroke
      { s with
        redoHistory := s.redoHistory
          ++ [jsGet s.history s.currentHistoryIndex]
        currentHistoryIndex := s.currentHistoryIndex - 1
        pixels := jsGet s.history (s.currentHistoryIndex - 1) }
      = { s with
          history := s.history ++ [jsGet s.history s.currentHistoryIndex]
          redoHistory := s.redoHistory
          currentHistoryIndex := s.currentHistoryIndex
          pixels := jsGet s.history s.currentHistoryIndex } := by
    simp only [redoLastStroke]
    rw [if_pos (by simp)]
    simp [List.take_left]
    exact jsGet_append_singleton _ (by omega) (by omega)
  rw [hr]
  refine ⟨rfl, rfl, rfl, rfl, ?_, ?_, by omega⟩
  · show jsGet (s.history ++ [jsGet s.history s.currentHistoryIndex])
        s.currentHistoryIndex = jsGet s.history s.currentHistoryIndex
    exact jsGet_append_left (by omega) (by omega)
  · show jsGet (s.history ++ [jsGet s.history s.currentHistoryIndex])
        (s.history.length : Int) = jsGet s.history s.currentHistoryIndex
    exact jsGet_append_singleton _ (by omega) (by omega)

theorem C10_undo_redo_pair_witness :
    (redoLastStroke (undoLastStroke pairState)).history
      = pairState.history
        ++ [jsGet pairState.history pairState.currentHistoryIndex] ∧
    (redoLastStroke (undoLastStroke pairState)).currentHistoryIndex
      = pairState.currentHistoryIndex :=
  ⟨(C10_undo_redo_pair pairState (by decide) (by decide)).1,
   (C10_undo_redo_pair pairState (by decide) (by decide)).2.1⟩

/-- C2: the decode callbacks installed by `undoLastStroke`/`redoLastStroke`
draw their snapshot unconditionally, with no check that their request is
still the most recent one.  From history `[1, 2, 3]` with the cursor on 3,
two undos issue decode requests for 2 and then for 1; if the callbacks fire
in issue order the raster ends at `history[currentHistoryIndex] = 1`, but if
the earlier request's decode completes last, its stale snapshot 2 overwrites
the later request's state — the surface does not match the last issued
request, contradicting the claimed guarantee. -/
theorem C2_decode_race :
    (runDecodes (undoIssue (undoIssue asyncStart)) [0, 1]).core.pixels
      = jsGet (undoIssue (undoIssue asyncStart)).core.history
          (undoIssue (undoIssue asyncStart)).core.currentHistoryIndex ∧
    (runDecodes (undoIssue (undoIssue asyncStart)) [1, 0]).core.pixels
      ≠ jsGet (undoIssue (undoIssue asyncStart)).core.history
          (undoIssue (undoIssue asyncStart)).core.currentHistoryIndex := by
  decide

end JustACanvas
